import Mathlib

/-!
Verification of the `web-features-standardization` analysis engine.

The development shallowly embeds the JavaScript source (`index.mjs`, the
distilled variant that defines `getBcdKey`, `isRelevantSpec`,
`completeWithCompatFeatures`, `analyzeFeatures`, `traverseBCDFeatures`,
`getBrowserSupport` and `analyzeBCD`) into Lean.  JavaScript strings are
modelled by Lean `String`; JS objects used as string-keyed maps are modelled
by association lists (`List (String × _)`); optional/absent properties by
`Option`; thrown errors by `Except`.  JS truthiness of the values that
actually flow through the program (strings, arrays, objects, `undefined`) is
modelled explicitly at every test site.
-/

/-! ### JavaScript string primitives -/

/-- Embeds `String.split` with a single-character separator, on the underlying
character list.  `[]` maps to `[[]]` exactly as `''.split(sep)` yields
`['']` in JavaScript. -/
def charSplitOn (sep : Char) : List Char → List (List Char)
  | [] => [[]]
  | c :: rest =>
    if c = sep then [] :: charSplitOn sep rest
    else
      match charSplitOn sep rest with
      | [] => [[c]]
      | seg :: segs => (c :: seg) :: segs

/-- Join character-list segments with a single-character separator. -/
def charJoin (sep : Char) : List (List Char) → List Char
  | [] => []
  | [l] => l
  | l :: rest => l ++ sep :: charJoin sep rest

/-- Embeds `key.split('.')` from the source, yielding the list of path segments. -/
def jsSplit (s : String) : List String :=
  (charSplitOn '.' s.data).map (fun l => String.mk l)

/-- Re-join path segments with the `'.'` separator (the inverse direction of
`jsSplit`, as used by the template literal that builds traversal keys). -/
def joinSegs : List String → String
  | [] => ""
  | [s] => s
  | s :: rest => s ++ "." ++ joinSegs rest

/-- JavaScript `url.startsWith(target)`: prefix test on the characters. -/
def jsStartsWith (s target : String) : Bool :=
  target.data.isPrefixOf s.data

/-- Lexicographic comparison of character lists (the order JavaScript's
`<`/`>` relational operators use on strings). -/
def charListLt : List Char → List Char → Bool
  | _, [] => false
  | [], _ :: _ => true
  | a :: as, b :: bs =>
    if a < b then true
    else if b < a then false
    else charListLt as bs

/-- JavaScript `a < b` on strings. -/
def jsStrLt (a b : String) : Bool :=
  charListLt a.data b.data

/-- Truthiness of the value of `urls.find(...)`: `undefined` and the empty
string are falsy, every other string is truthy. -/
def truthyStr : Option String → Bool
  | none => false
  | some s => s != ""

/-- JavaScript string coercion of a possibly-`undefined` value, as performed
by `startsWith` on its argument: `undefined` coerces to the literal string
`"undefined"`. -/
def jsStr : Option String → String
  | none => "undefined"
  | some s => s

/-- Embeds `urls.find(url => url.startsWith(target))`. -/
def findPrefixed (urls : List String) (target : String) : Option String :=
  urls.find? (fun url => jsStartsWith url target)

/-- Property lookup in a JS object modelled as an association list
(first binding wins, as JS objects hold at most one binding per key). -/
def lookupKey {α : Type} : List (String × α) → String → Option α
  | [], _ => none
  | (k, v) :: rest, key => if k = key then some v else lookupKey rest key

/-- All keys pairwise distinct (the invariant JS objects enforce). -/
def keysDistinct : List String → Bool
  | [] => true
  | k :: rest => (!rest.contains k) && keysDistinct rest

/-! ### Data model: BCD compat records and the BCD tree -/

/-- A JS value that is either a string or an array of strings
(the shape of `spec_url` in BCD and of the `spec` property in
web-features). -/
inductive StrOrArr : Type where
  | str (s : String)
  | arr (l : List String)
deriving DecidableEq, Repr

/-- JS truthiness of a string-or-array value: the empty string is falsy,
every other string and every array (even the empty one) is truthy. -/
def StrOrArr.truthy : StrOrArr → Bool
  | .str s => s != ""
  | .arr _ => true

/-- Embeds `Array.isArray(v) ? v : [v]` from the source. -/
def StrOrArr.toList : StrOrArr → List String
  | .str s => [s]
  | .arr l => l

/-- One BCD support statement for one browser.  `version_added` is `none`
when the property is absent or carries a falsy value (`false`/`null`). -/
structure BrowserStatement : Type where
  version_added : Option String
  partial_implementation : Bool
  flags : Bool
deriving DecidableEq, Repr

/-- A per-browser support value in BCD: either a single statement or an
array of statements (the source takes element `[0]` of an array). -/
inductive SupportEntry : Type where
  | single (s : BrowserStatement)
  | arr (l : List BrowserStatement)
deriving DecidableEq, Repr

/-- The `__compat` record of a BCD key. -/
structure CompatRecord : Type where
  support : List (String × SupportEntry)
  spec_url : Option StrOrArr
  mdn_url : Option String
deriving DecidableEq, Repr

/-- A node of the BCD tree: an optional `__compat` record plus named
sub-features (the non-`__compat` object-valued properties). -/
inductive BCDNode : Type where
  | node (compat : Option CompatRecord) (children : List (String × BCDNode))

/-- The `__compat` property of a node. -/
def BCDNode.getCompat : BCDNode → Option CompatRecord
  | .node compat _ => compat

/-- The sub-feature list of a node. -/
def BCDNode.children : BCDNode → List (String × BCDNode)
  | .node _ children => children

/-- Embeds `currKey[level]`: child lookup in the BCD tree. -/
def childLookup (n : BCDNode) (seg : String) : Option BCDNode :=
  lookupKey n.children seg

/-- The memoization table `bcdKeys` (path string → resolved node). -/
abbrev Cache := List (String × BCDNode)

/-- The error kinds the engine can raise (§7 of the design): a missing
path segment, a resolved node without compat data, a feature whose
explicit references match no catalog spec, and the `assert(desc.spec)`
guard for a feature with no spec reference at all. -/
inductive AnalyzeError : Type where
  | missingKey (key : String)
  | noCompatData (key : String)
  | noSpecLinked (feature : String)
  | noSpecProperty (feature : String)
deriving DecidableEq, Repr

/-- Result of `getBcdKey`: the resolved node (`support: false`) or the
value of `node.__compat` (`support: true`; `none` models the JS
`undefined` that the memoized branch can return). -/
inductive GetResult : Type where
  | nodeRes (n : BCDNode)
  | compatRes (c : Option CompatRecord)

/-! ### `getBcdKey`: path resolution with memoization -/

/-- The traversal loop of `getBcdKey`: walk down the tree along the
segments, stopping early (`break`) at the first empty segment, failing
(`throw`) when a segment has no corresponding child. -/
def resolveSegs : BCDNode → List String → Option BCDNode
  | n, [] => some n
  | n, seg :: rest =>
    if seg = "" then some n
    else
      match childLookup n seg with
      | none => none
      | some c => resolveSegs c rest

/-- Embeds `getBcdKey(key, { support })` from the source.  The cache is consulted
first; on a miss the path is resolved, memoized (before the compat-data
check, exactly as in the source), and the node or its compat record is
returned.  Note that the memoized branch returns `cachedKey.__compat`
without the `NoCompatData` check. -/
def getBcdKey (bcd : BCDNode) (cache : Cache) (key : String) (support : Bool) :
    Except AnalyzeError (GetResult × Cache) :=
  match lookupKey cache key with
  | some cached =>
    if support then .ok (.compatRes cached.getCompat, cache)
    else .ok (.nodeRes cached, cache)
  | none =>
    match resolveSegs bcd (jsSplit key) with
    | none => .error (.missingKey key)
    | some n =>
      let cache2 : Cache := (key, n) :: cache
      if support then
        match n.getCompat with
        | none => .error (.noCompatData key)
        | some c => .ok (.compatRes (some c), cache2)
      else .ok (.nodeRes n, cache2)

/-! ### Spec records and `isRelevantSpec` -/

/-- The `nightly` reference of a web-specs entry. -/
structure SpecNightly : Type where
  url : String
deriving DecidableEq, Repr

/-- The `release` reference of a web-specs entry. -/
structure SpecRelease : Type where
  url : String
  status : String
deriving DecidableEq, Repr

/-- The `series` metadata of a web-specs entry. -/
structure SpecSeries : Type where
  currentSpecification : String
  nightlyUrl : Option String
  releaseUrl : Option String
deriving DecidableEq, Repr

/-- A web-specs entry, restricted to the properties the engine reads.
`compat_features` is the property `completeWithCompatFeatures` may add. -/
structure Spec : Type where
  shortname : String
  url : String
  organization : String
  nightly : Option SpecNightly
  release : Option SpecRelease
  series : SpecSeries
  compat_features : Option (List String)
deriving DecidableEq, Repr

/-- Embeds `isRelevantSpec(spec, urls)` from the source.  Each disjunct is the JS
truthiness of `urls.find(url => url.startsWith(x))` where a missing `x`
(e.g. `spec.nightly?.url` on a spec with no nightly) is coerced by
`startsWith` to the literal string `"undefined"` — the embedding keeps
that coercion. -/
def isRelevantSpec (spec : Spec) (urls : List String) : Bool :=
  truthyStr (findPrefixed urls (jsStr (spec.nightly.map SpecNightly.url))) ||
  truthyStr (findPrefixed urls (jsStr (spec.release.map SpecRelease.url))) ||
  truthyStr (findPrefixed urls spec.url) ||
  ((spec.shortname == spec.series.currentSpecification) &&
    truthyStr (findPrefixed urls (jsStr spec.series.nightlyUrl))) ||
  ((spec.shortname == spec.series.currentSpecification) &&
    truthyStr (findPrefixed urls (jsStr spec.series.releaseUrl)))

/-! ### Maturity sets -/

/-- Statuses at which a W3C spec is considered interoperable. -/
def interoperableStatuses : List String :=
  ["Recommendation", "Proposed Recommendation"]

/-- Statuses at which a W3C spec is considered relatively stable. -/
def stableStatuses : List String :=
  ["Candidate Recommendation Snapshot", "Candidate Recommendation Draft"] ++
    interoperableStatuses

/-! A few sanity checks of the primitives -/

example : jsSplit "css.properties.display.grid" =
    ["css", "properties", "display", "grid"] := by decide

example : jsSplit "" = [""] := by decide

example : jsSplit "css..properties" = ["css", "", "properties"] := by decide

example : joinSegs ["css", "", "properties"] = "css..properties" := by decide

example : jsStartsWith "https://a/b" "https://a" = true := by decide

example : jsStartsWith "undefined-url" "undefined" = true := by decide

/-! ### Feature descriptors and anomaly records -/

/-- The three-valued Baseline classification (`false` / `"low"` / `"high"`).
`bfalse` stands for the JS literal `false`. -/
inductive Baseline : Type where
  | bfalse
  | low
  | high
deriving DecidableEq, Repr

/-- The `status` property of a feature: its baseline (`none` models any
value outside `[false, 'low', 'high']`) and its per-browser support map. -/
structure FeatureStatus : Type where
  baseline : Option Baseline
  support : List (String × String)
deriving DecidableEq, Repr

/-- A web-features descriptor, restricted to the properties the engine
reads. -/
structure FeatureDesc : Type where
  status : Option FeatureStatus
  compat_features : Option (List String)
  spec : Option StrOrArr
deriving DecidableEq, Repr

/-- One record pushed by `recordPossibleAnomalies`: the feature identifier
and the matched spec's shortname, url and compat-feature provenance. -/
structure AnomalyEntry : Type where
  feature : String
  shortname : String
  url : String
  compat_features : Option (List String)
deriving DecidableEq, Repr

/-- One anomaly category keyed by baseline bucket (`high` / `low` /
`false`). -/
structure Buckets : Type where
  high : List AnomalyEntry
  low : List AnomalyEntry
  bfalse : List AnomalyEntry
deriving DecidableEq, Repr

/-- The `worthChecking` accumulator: the three anomaly categories.
`interoperableStatuses` is the "not-yet-interoperable-implementation"
category of the design document. -/
structure WorthChecking : Type where
  lateIncubation : Buckets
  lateWorkingDrafts : Buckets
  interoperableStatuses : Buckets
deriving DecidableEq, Repr

/-- Empty category. -/
def emptyBuckets : Buckets := ⟨[], [], []⟩

/-- Empty accumulator. -/
def emptyWC : WorthChecking := ⟨emptyBuckets, emptyBuckets, emptyBuckets⟩

/-- Append the per-bucket lists of two categories. -/
def appendBuckets (a b : Buckets) : Buckets :=
  ⟨a.high ++ b.high, a.low ++ b.low, a.bfalse ++ b.bfalse⟩

/-- Append two accumulators category-wise. -/
def appendWC (a b : WorthChecking) : WorthChecking :=
  ⟨appendBuckets a.lateIncubation b.lateIncubation,
   appendBuckets a.lateWorkingDrafts b.lateWorkingDrafts,
   appendBuckets a.interoperableStatuses b.interoperableStatuses⟩

/-- Place an entry list in the bucket named by a baseline value
(`worthChecking[anomaly][baseline].push(...)`). -/
def bucketPut (b : Baseline) (es : List AnomalyEntry) : Buckets :=
  match b with
  | .high => ⟨es, [], []⟩
  | .low => ⟨[], es, []⟩
  | .bfalse => ⟨[], [], es⟩

/-- Embeds `recordPossibleAnomalies`: one entry per spec, in list order. -/
def entriesFor (feature : String) (specs : List Spec) : List AnomalyEntry :=
  specs.map (fun s => ⟨feature, s.shortname, s.url, s.compat_features⟩)

/-! ### Codebase counting and classification (`analyzeFeatures` body) -/

/-- Embeds `browser === 'edge' ? 'chrome' : browser.split('_')[0]`: collapse a
browser identifier to its codebase.  The first element of
`split('_')` is the run of characters before the first underscore. -/
def codebaseOf (browser : String) : String :=
  if browser = "edge" then "chrome"
  else String.mk ((charSplitOn '_' browser.data).headD [])

/-- Size of the `Set` of codebases built from the support-map keys. -/
def codebaseCount (browsers : List String) : Nat :=
  ((browsers.map codebaseOf).dedup).length

/-- Specs whose release status is in the already-interoperable set. -/
def interopSpecs (specs : List Spec) : List Spec :=
  specs.filter (fun s =>
    match s.release with
    | some r => interoperableStatuses.contains r.status
    | none => false)

/-- Specs with no release reference (still in incubation). -/
def incubationSpecs (specs : List Spec) : List Spec :=
  specs.filter (fun s => s.release.isNone)

/-- Specs with a release reference that is not yet in the stable set. -/
def lateWDSpecs (specs : List Spec) : List Spec :=
  specs.filter (fun s =>
    match s.release with
    | some r => !stableStatuses.contains r.status
    | none => false)

/-- The classification part of the `analyzeFeatures` loop body (the code
guarded by `[false, 'low', 'high'].includes(desc.status.baseline)`),
producing the records the feature contributes to each category. -/
def classifyFeature (feature : String) (st : FeatureStatus) (w3cSpecs : List Spec) :
    WorthChecking :=
  match st.baseline with
  | none => emptyWC
  | some b =>
    if b = .bfalse ∧ codebaseCount (st.support.map Prod.fst) ≤ 1 then
      { lateIncubation := emptyBuckets
        lateWorkingDrafts := emptyBuckets
        interoperableStatuses := bucketPut b (entriesFor feature (interopSpecs w3cSpecs)) }
    else
      { lateIncubation := bucketPut b (entriesFor feature (incubationSpecs w3cSpecs))
        lateWorkingDrafts := bucketPut b (entriesFor feature (lateWDSpecs w3cSpecs))
        interoperableStatuses :=
          if b = .bfalse then emptyBuckets
          else bucketPut b (entriesFor feature (interopSpecs w3cSpecs)) }

/-! ### `completeWithCompatFeatures` and spec assembly -/

/-- The loop of `completeWithCompatFeatures`: retrieve each compat key's
record (`support: true`), and collect the keys whose truthy `spec_url`
makes the spec relevant.  Errors from `getBcdKey` propagate. -/
def cwcfLoop (bcd : BCDNode) (spec : Spec) :
    List String → Cache → List String → Except AnalyzeError (List String × Cache)
  | [], cache, matched => .ok (matched, cache)
  | f :: rest, cache, matched =>
    match getBcdKey bcd cache f true with
    | .error e => .error e
    | .ok (res, cache2) =>
      let keep : Bool :=
        match res with
        | .compatRes (some c) =>
          match c.spec_url with
          | some su => su.truthy && isRelevantSpec spec su.toList
          | none => false
        | _ => false
      cwcfLoop bcd spec rest cache2 (if keep then matched ++ [f] else matched)

/-- Embeds `completeWithCompatFeatures(spec, compat_features)`: returns a copy of
the spec extended with the matching keys when there are any, the spec
itself otherwise. -/
def completeWithCompatFeatures (bcd : BCDNode) (spec : Spec)
    (compat_features : List String) (cache : Cache) :
    Except AnalyzeError (Spec × Cache) :=
  match cwcfLoop bcd spec compat_features cache [] with
  | .error e => .error e
  | .ok (matched, cache2) =>
    match matched with
    | [] => .ok (spec, cache2)
    | m =>
      let copy := { spec with compat_features := some (spec.compat_features.getD [] ++ m) }
      .ok (copy, cache2)

/-- Embeds `webSpecs.map(s => completeWithCompatFeatures(s, compat_features))`
threading the memoization cache. -/
def completeAllLoop (bcd : BCDNode) (cf : List String) :
    List Spec → Cache → Except AnalyzeError (List Spec × Cache)
  | [], cache => .ok ([], cache)
  | s :: rest, cache =>
    match completeWithCompatFeatures bcd s cf cache with
    | .error e => .error e
    | .ok (s2, cache2) =>
      match completeAllLoop bcd cf rest cache2 with
      | .error e => .error e
      | .ok (l, cache3) => .ok (s2 :: l, cache3)

/-- The URL list derived from the `spec` property:
`Array.isArray(desc.spec) ? desc.spec : [desc.spec]`. -/
def specUrls : Option StrOrArr → List String
  | some v => v.toList
  | none => []

/-- JS truthiness of the `spec` property, as tested by
`assert(desc.spec, ...)`. -/
def specTruthy : Option StrOrArr → Bool
  | none => false
  | some v => v.truthy

/-- Embeds `Object.assign({ compat_features: desc.compat_features }, spec)`:
the spec's own property, when present, wins over the default. -/
def mergeCompat (s : Spec) (cf : Option (List String)) : Spec :=
  match s.compat_features with
  | some _ => s
  | none => { s with compat_features := cf }

/-- One iteration of the `analyzeFeatures` loop: assemble the spec list
for the feature (from its compat keys, or from its `spec` property),
restrict to W3C specs, and classify.  Returns the records the feature
contributes together with the updated cache. -/
def processFeature (bcd : BCDNode) (webSpecs : List Spec) (useSpecsProperty : Bool)
    (feature : String) (desc : FeatureDesc) (cache : Cache) :
    Except AnalyzeError (WorthChecking × Cache) :=
  match desc.status with
  | none => .ok (emptyWC, cache)
  | some st =>
    let assembled : Except AnalyzeError (List Spec × Cache) :=
      if !useSpecsProperty && desc.compat_features.isSome then
        match completeAllLoop bcd (desc.compat_features.getD []) webSpecs cache with
        | .error e => .error e
        | .ok (l, cache2) => .ok (l.filter (fun s => s.compat_features.isSome), cache2)
      else
        if !(specTruthy desc.spec) then .error (.noSpecProperty feature)
        else
          let urls := specUrls desc.spec
          let specs := webSpecs.filter (fun s => isRelevantSpec s urls)
          if urls.length > 0 && specs.length == 0 then .error (.noSpecLinked feature)
          else
            let specs2 := if useSpecsProperty
              then specs.map (fun s => mergeCompat s desc.compat_features)
              else specs
            .ok (specs2, cache)
    match assembled with
    | .error e => .error e
    | .ok (specs, cache2) =>
      let w3cSpecs := specs.filter (fun s => s.organization == "W3C")
      if w3cSpecs.length == 0 then .ok (emptyWC, cache2)
      else .ok (classifyFeature feature st w3cSpecs, cache2)

/-- The `analyzeFeatures` loop over all features, threading the cache and
accumulating the pushed records. -/
def analyzeLoop (bcd : BCDNode) (webSpecs : List Spec) (useSpecsProperty : Bool) :
    List (String × FeatureDesc) → Cache → WorthChecking →
    Except AnalyzeError (WorthChecking × Cache)
  | [], cache, acc => .ok (acc, cache)
  | (f, d) :: rest, cache, acc =>
    match processFeature bcd webSpecs useSpecsProperty f d cache with
    | .error e => .error e
    | .ok (delta, cache2) =>
      analyzeLoop bcd webSpecs useSpecsProperty rest cache2 (appendWC acc delta)

/-- Embeds `analyzeFeatures(features, { useSpecsProperty })`, run from a fresh
memoization cache: the categorized anomaly records. -/
def analyzeFeatures (bcd : BCDNode) (webSpecs : List Spec)
    (features : List (String × FeatureDesc)) (useSpecsProperty : Bool) :
    Except AnalyzeError WorthChecking :=
  match analyzeLoop bcd webSpecs useSpecsProperty features [] emptyWC with
  | .error e => .error e
  | .ok (wc, _) => .ok wc

/-! ### BCD traversal (`traverseBCDFeatures`) -/

/-- The body of the generator `traverseBCDFeatures(key)` for a node whose
path is `key`: for each sub-feature `i`, yield `` `${key}.${i}` `` and then
recurse into it.  (The generator retrieves the node for `key` through
`getBcdKey`; here the node is carried directly, which coincides on the
dot-separated trees the generator is run on.) -/
def traverseChildren : List (String × BCDNode) → String → List String
  | [], _ => []
  | (i, .node _ cs) :: rest, key =>
    (key ++ "." ++ i) ::
      (traverseChildren cs (key ++ "." ++ i) ++ traverseChildren rest key)

/-- The fixed list of root category names the traversal starts from. -/
def rootLevels : List String :=
  ["api", "css", "html", "http", "svg", "javascript", "mathml", "webassembly",
   "webdriver"]

/-- Embeds `traverseBCDFeatures()` over a given root list: each root is resolved
(`getBcdKey` raises `MissingKey` if it is absent) and its subtree is
enumerated. -/
def traverseRoots (bcd : BCDNode) : List String → Except AnalyzeError (List String)
  | [] => .ok []
  | root :: rest =>
    match childLookup bcd root with
    | none => .error (.missingKey root)
    | some n =>
      match traverseRoots bcd rest with
      | .error e => .error e
      | .ok l => .ok (traverseChildren n.children root ++ l)

/-- The full lazy sequence of BCD paths, as a list. -/
def traverseBCDFeatures (bcd : BCDNode) : Except AnalyzeError (List String) :=
  traverseRoots bcd rootLevels

/-! ### Well-formedness of a BCD tree

A real BCD tree is a JSON object tree: property names on one node are
distinct, non-empty and contain no `'.'` (the path separator). -/

/-- A child key usable as a path segment. -/
def goodKey (k : String) : Bool :=
  (k != "") && !(k.data.contains '.')

/-- Well-formed children list: good, distinct keys, recursively. -/
def wfChildren : List (String × BCDNode) → Bool
  | [] => true
  | (k, .node _ cs) :: rest =>
    goodKey k && keysDistinct (cs.map Prod.fst) && wfChildren cs && wfChildren rest

/-- Well-formed tree. -/
def wfNode (n : BCDNode) : Bool :=
  keysDistinct (n.children.map Prod.fst) && wfChildren n.children

/-! ### Support evaluation (`getBrowserSupport`, `analyzeBCD`) -/

/-- The core Baseline browser set. -/
def baselineBrowsers : List String :=
  ["chrome", "chrome_android", "edge", "firefox", "firefox_android", "safari",
   "safari_ios"]

/-- Embeds `Array.isArray(browserSupport) ? browserSupport[0] : browserSupport`.
(`none` for an empty array, on which the source would fault; BCD's schema
rules that shape out.) -/
def entryFirst : SupportEntry → Option BrowserStatement
  | .single s => some s
  | .arr l => l.head?

/-- The inner loop of `getBrowserSupport` for one browser: fold the compat
records left to right, clearing (`''` and `break`) on a missing entry, a
partial/flag-gated statement or a falsy `version_added`, and otherwise
keeping the running maximum (JS string comparison `>`). -/
def supportLoop (browser : String) : List CompatRecord → String → String
  | [], acc => acc
  | data :: rest, acc =>
    match (lookupKey data.support browser).bind entryFirst with
    | none => ""
    | some bs =>
      if bs.partial_implementation || bs.flags then ""
      else
        match bs.version_added with
        | none => ""
        | some v =>
          if v = "" then ""
          else supportLoop browser rest (if jsStrLt acc v then v else acc)

/-- The support map computed by `getBrowserSupport` from a list of compat
records: the per-browser loop over the roster, then deletion of the
cleared (`''`) browsers. -/
def computeSupport (compatData : List CompatRecord) : List (String × String) :=
  (baselineBrowsers.map (fun b => (b, supportLoop b compatData ""))).filter
    (fun p => p.2 != "")

/-- The "version introduced" one compat record contributes for one browser:
`none` exactly when the record disqualifies the browser (no support entry,
partial/flag-gated, or no truthy `version_added`). -/
def versionOf (r : CompatRecord) (b : String) : Option String :=
  ((lookupKey r.support b).bind entryFirst).bind (fun bs =>
    if bs.partial_implementation || bs.flags then none
    else
      match bs.version_added with
      | none => none
      | some v => if v = "" then none else some v)

/-- Embeds `getBrowserSupport(keys)`: retrieve each key's compat record
(`support: true`), drop the falsy ones (`filter(data => !!data)`), and
evaluate the support map. -/
def collectCompat (bcd : BCDNode) :
    List String → Cache → Except AnalyzeError (List (Option CompatRecord) × Cache)
  | [], cache => .ok ([], cache)
  | k :: rest, cache =>
    match getBcdKey bcd cache k true with
    | .error e => .error e
    | .ok (res, cache2) =>
      let c : Option CompatRecord :=
        match res with
        | .compatRes c => c
        | .nodeRes _ => none
      match collectCompat bcd rest cache2 with
      | .error e => .error e
      | .ok (l, cache3) => .ok (c :: l, cache3)

/-- Embeds `getBrowserSupport` from the source, threading the cache. -/
def getBrowserSupport (bcd : BCDNode) (keys : List String) (cache : Cache) :
    Except AnalyzeError (List (String × String) × Cache) :=
  match collectCompat bcd keys cache with
  | .error e => .error e
  | .ok (l, cache2) => .ok (computeSupport (l.filterMap id), cache2)

/-- The rough Baseline bucket `analyzeBCD` derives for a spec
pseudo-feature: `(Object.keys(support).length > 6) ? 'low' : false`. -/
def deriveBaseline (support : List (String × String)) : Baseline :=
  if 6 < support.length then .low else .bfalse

/-! More sanity checks -/

example : codebaseOf "safari_ios" = "safari" := by decide
example : codebaseOf "edge" = "chrome" := by decide
example : codebaseCount ["safari", "safari_ios"] = 1 := by decide
example : codebaseCount ["edge", "chrome"] = 1 := by decide
example : codebaseCount ["chrome", "firefox"] = 2 := by decide

/-! ### Concrete fixtures used by witnesses and counterexamples -/

/-- A leaf node with no compat record and no children. -/
def sampleLeaf : BCDNode := .node none []

/-- A grouping node (no compat record) reachable at path `"a"`. -/
def sampleA : BCDNode := .node none []

/-- A one-child catalog whose only node carries no compat record. -/
def sampleBcd : BCDNode := .node none [("a", sampleA)]

/-- The node reachable at path `"css"` in `cssTree`. -/
def cssNode : BCDNode := .node none [("properties", sampleLeaf)]

/-- A catalog with a `css` branch. -/
def cssTree : BCDNode := .node none [("css", cssNode)]

/-! ### C1 — memoization and the NoCompatData error -/

/-- C1 (counterexample): resolving the path `"a"` (whose node has no compat
record) without the compat record memoizes the node; resolving the same
path again with `wantCompatRecord = true` then succeeds with an absent
record instead of failing with *NoCompatData* — memoization changes the
error behaviour, contrary to the claim. -/
theorem c1_counterexample :
    getBcdKey sampleBcd [] "a" false = .ok (.nodeRes sampleA, [("a", sampleA)]) ∧
    sampleA.getCompat = none ∧
    getBcdKey sampleBcd [("a", sampleA)] "a" true =
      .ok (.compatRes none, [("a", sampleA)]) ∧
    getBcdKey sampleBcd [("a", sampleA)] "a" true ≠
      .error (.noCompatData "a") :=
  ⟨rfl, rfl, rfl, fun h => Except.noConfusion h⟩

/-- C1 (amended): `resolve(path, wantCompatRecord=true)` on a path whose
node has no compat record fails with *NoCompatData* only when the path is
not yet memoized; when the path is already memoized the call instead
returns the absent record (`undefined`) without an error, so memoization
does change the result and error behaviour of compat-record lookups. -/
theorem c1_memoization (bcd : BCDNode) (cache : Cache) (key : String) (n : BCDNode) :
    (lookupKey cache key = none → resolveSegs bcd (jsSplit key) = some n →
      n.getCompat = none → getBcdKey bcd cache key true = .error (.noCompatData key)) ∧
    (lookupKey cache key = some n → n.getCompat = none →
      getBcdKey bcd cache key true = .ok (.compatRes none, cache)) := by
  constructor
  · intro hmiss hres hcompat
    simp [getBcdKey, hmiss, hres, hcompat]
  · intro hhit hcompat
    simp [getBcdKey, hhit, hcompat]

/-- Witness for C1: both branches of the amended statement at the concrete
catalog `sampleBcd` and path `"a"`. -/
theorem c1_memoization_witness :
    getBcdKey sampleBcd [] "a" true = .error (.noCompatData "a") ∧
    getBcdKey sampleBcd [("a", sampleA)] "a" true =
      .ok (.compatRes none, [("a", sampleA)]) :=
  ⟨(c1_memoization sampleBcd [] "a" sampleA).1 rfl rfl rfl,
   (c1_memoization sampleBcd [("a", sampleA)] "a" sampleA).2 rfl rfl⟩

/-! ### C10 — empty path segments -/

/-- C10: the traversal loop breaks at the first empty segment, so resolving
a path with an empty segment does not fail: the node reached so far is
returned.  In particular the empty path resolves (from a fresh cache) to
the whole catalog root, and `"css..properties"` resolves to the node for
`"css"`. -/
theorem c10_empty_segments :
    (∀ (n : BCDNode) (rest : List String), resolveSegs n ("" :: rest) = some n) ∧
    (∀ bcd : BCDNode, getBcdKey bcd [] "" false = .ok (.nodeRes bcd, [("", bcd)])) ∧
    getBcdKey cssTree [] "css..properties" false =
      .ok (.nodeRes cssNode, [("css..properties", cssNode)]) :=
  ⟨fun _ _ => rfl, fun _ => rfl, rfl⟩

/-! ### Helper lemmas about the URL primitives -/

/-- Every string starts with itself. -/
theorem jsStartsWith_self (s : String) : jsStartsWith s s = true := by
  simp [jsStartsWith, List.isPrefixOf_iff_prefix]

/-- The find over a singleton list succeeds exactly on a prefix match. -/
theorem findPrefixed_singleton (u target : String) :
    findPrefixed [u] target = if jsStartsWith u target then some u else none := by
  by_cases h : jsStartsWith u target <;> simp [findPrefixed, List.find?_cons, h]

/-- The find fails when no URL has the prefix. -/
theorem findPrefixed_eq_none (urls : List String) (target : String)
    (h : ∀ u ∈ urls, jsStartsWith u target = false) :
    findPrefixed urls target = none :=
  List.find?_eq_none.mpr (by intro u hu; simp [h u hu])

/-! ### C6 — relevance reflexivity -/

/-- C6 (counterexample): reflexivity fails when the referenced URL is the
empty string.  The spec below has a nightly reference whose URL is `""`
(and a non-empty canonical URL), yet `isRelevant(S, [S.nightly.url])` is
false: JS `find` returns the matching URL itself, and the empty string is
falsy. -/
def c6Spec : Spec :=
  { shortname := "s", url := "https://www.w3.org/TR/s/",
    organization := "W3C", nightly := some ⟨""⟩, release := none,
    series := ⟨"other", none, none⟩, compat_features := none }

/-- C6 (counterexample theorem): `c6Spec` has a nightly reference and a
non-empty canonical URL, but relevance against `[nightly.url]` is false. -/
theorem c6_counterexample :
    c6Spec.nightly = some ⟨""⟩ ∧ c6Spec.url ≠ "" ∧
    isRelevantSpec c6Spec [""] = false :=
  ⟨rfl, by decide, by decide⟩

/-- C6 (amended): relevance is reflexive on non-empty URLs — for any spec
record, `isRelevant(S, [S.url])` holds when the canonical URL is non-empty,
and `isRelevant(S, [S.nightly.url])` (resp. release) holds when the nightly
(resp. release) reference is present with a non-empty URL. -/
theorem c6_reflexivity (S : Spec) :
    (S.url ≠ "" → isRelevantSpec S [S.url] = true) ∧
    (∀ n, S.nightly = some n → n.url ≠ "" → isRelevantSpec S [n.url] = true) ∧
    (∀ r, S.release = some r → r.url ≠ "" → isRelevantSpec S [r.url] = true) := by
  refine ⟨fun h => ?_, fun n hn h => ?_, fun r hr h => ?_⟩
  · have : truthyStr (findPrefixed [S.url] S.url) = true := by
      simp [findPrefixed_singleton, jsStartsWith_self, truthyStr, h]
    simp [isRelevantSpec, this]
  · have : truthyStr (findPrefixed [n.url] (jsStr (S.nightly.map SpecNightly.url))) = true := by
      simp [hn, jsStr, findPrefixed_singleton, jsStartsWith_self, truthyStr, h]
    simp [isRelevantSpec, this]
  · have : truthyStr (findPrefixed [r.url] (jsStr (S.release.map SpecRelease.url))) = true := by
      simp [hr, jsStr, findPrefixed_singleton, jsStartsWith_self, truthyStr, h]
    simp [isRelevantSpec, this]

/-- Witness for C6: all three reflexivity conditions at a concrete spec
with non-empty canonical, nightly and release URLs. -/
def c6wSpec : Spec :=
  { shortname := "w", url := "https://www.w3.org/TR/w/",
    organization := "W3C", nightly := some ⟨"https://w3c.github.io/w/"⟩,
    release := some ⟨"https://www.w3.org/TR/2024/w/", "Working Draft"⟩,
    series := ⟨"w", none, none⟩, compat_features := none }

/-- Witness theorem for C6. -/
theorem c6_reflexivity_witness :
    isRelevantSpec c6wSpec ["https://www.w3.org/TR/w/"] = true ∧
    isRelevantSpec c6wSpec ["https://w3c.github.io/w/"] = true ∧
    isRelevantSpec c6wSpec ["https://www.w3.org/TR/2024/w/"] = true :=
  ⟨(c6_reflexivity c6wSpec).1 (by decide),
   (c6_reflexivity c6wSpec).2.1 ⟨"https://w3c.github.io/w/"⟩ rfl (by decide),
   (c6_reflexivity c6wSpec).2.2 ⟨"https://www.w3.org/TR/2024/w/", "Working Draft"⟩ rfl
     (by decide)⟩

/-! ### C7 — missing optionals in the relevance check -/

/-- C7 (counterexample): a missing optional does *not* behave as "never
matches": `startsWith` coerces the missing value to the literal string
`"undefined"`, so a reference URL that starts with `"undefined"` matches a
spec with no nightly reference.  `c7Spec` has no nightly/release reference
and no series endpoints, yet it is relevant to `["undefined"]`. -/
def c7Spec : Spec :=
  { shortname := "s7", url := "https://www.w3.org/TR/s7/",
    organization := "W3C", nightly := none, release := none,
    series := ⟨"other", none, none⟩, compat_features := none }

/-- C7 (counterexample theorem): all optional references of `c7Spec` are
absent, no reference URL equals any of its present URLs, and yet the
relevance check succeeds on `["undefined"]`. -/
theorem c7_counterexample :
    c7Spec.nightly = none ∧ c7Spec.release = none ∧
    c7Spec.series.nightlyUrl = none ∧ c7Spec.series.releaseUrl = none ∧
    isRelevantSpec c7Spec ["undefined"] = true :=
  ⟨rfl, rfl, rfl, rfl, by decide⟩

/-- C7 (amended): a missing optional matches exactly the URLs that start
with the literal string `"undefined"` (the JS string coercion of the
missing value) and never raises an error; whenever no reference URL starts
with `"undefined"`, every condition whose optional field is absent
contributes false, so with all optionals absent relevance reduces to the
canonical-URL prefix condition. -/
theorem c7_missing_optionals (S : Spec) (urls : List String)
    (hu : ∀ u ∈ urls, jsStartsWith u "undefined" = false) :
    (S.nightly = none →
      truthyStr (findPrefixed urls (jsStr (S.nightly.map SpecNightly.url))) = false) ∧
    (S.release = none →
      truthyStr (findPrefixed urls (jsStr (S.release.map SpecRelease.url))) = false) ∧
    (S.series.nightlyUrl = none →
      truthyStr (findPrefixed urls (jsStr S.series.nightlyUrl)) = false) ∧
    (S.series.releaseUrl = none →
      truthyStr (findPrefixed urls (jsStr S.series.releaseUrl)) = false) ∧
    (S.nightly = none → S.release = none → S.series.nightlyUrl = none →
      S.series.releaseUrl = none →
      isRelevantSpec S urls = truthyStr (findPrefixed urls S.url)) := by
  have hnone : findPrefixed urls "undefined" = none := findPrefixed_eq_none _ _ hu
  refine ⟨fun h1 => ?_, fun h2 => ?_, fun h3 => ?_, fun h4 => ?_,
    fun h1 h2 h3 h4 => ?_⟩
  · simp [h1, jsStr, hnone, truthyStr]
  · simp [h2, jsStr, hnone, truthyStr]
  · simp [h3, jsStr, hnone, truthyStr]
  · simp [h4, jsStr, hnone, truthyStr]
  · simp [isRelevantSpec, h1, h2, h3, h4, jsStr, hnone, truthyStr]

/-- Witness for C7: the amended statement at a concrete spec with all
optionals absent and a reference list with no `"undefined"`-prefixed URL. -/
theorem c7_missing_optionals_witness :
    isRelevantSpec c7Spec ["https://www.w3.org/TR/s7/"] =
      truthyStr (findPrefixed ["https://www.w3.org/TR/s7/"] c7Spec.url) :=
  (c7_missing_optionals c7Spec ["https://www.w3.org/TR/s7/"]
      (by intro u hu; simp at hu; subst hu; decide)).2.2.2.2 rfl rfl rfl rfl

/-! ### C5 — single-engine feature over a Working Draft spec -/

/-- C5: a baseline-`false` feature whose supporting browsers collapse to at
most one codebase, linked only to specs at the "Working Draft" stage,
produces no record in any of the three categories: Step 1 short-circuits
the two lag categories and "Working Draft" is not in the
already-interoperable set. -/
theorem c5_single_engine_working_draft (f : String)
    (support : List (String × String)) (specs : List Spec)
    (hcb : codebaseCount (support.map Prod.fst) ≤ 1)
    (hwd : ∀ s ∈ specs, ∃ r, s.release = some r ∧ r.status = "Working Draft") :
    classifyFeature f ⟨some .bfalse, support⟩ specs = emptyWC := by
  have hint : interopSpecs specs = [] := by
    apply List.filter_eq_nil_iff.mpr
    intro s hs
    obtain ⟨r, hr, hst⟩ := hwd s hs
    simp [hr, hst, interoperableStatuses]
  simp [classifyFeature, hcb, hint, bucketPut, emptyWC, emptyBuckets, entriesFor]

/-- A W3C spec at the Working Draft stage. -/
def wdSpec : Spec :=
  { shortname := "wd", url := "https://www.w3.org/TR/wd/",
    organization := "W3C", nightly := none,
    release := some ⟨"https://www.w3.org/TR/wd/", "Working Draft"⟩,
    series := ⟨"wd", none, none⟩, compat_features := none }

/-- Witness for C5: support only from `{"chrome"}` (codebase count 1) and a
Working Draft spec yield no records at all. -/
theorem c5_single_engine_working_draft_witness :
    codebaseCount ([("chrome", "100")].map Prod.fst) ≤ 1 ∧
    classifyFeature "f" ⟨some .bfalse, [("chrome", "100")]⟩ [wdSpec] = emptyWC :=
  ⟨by decide,
   c5_single_engine_working_draft "f" [("chrome", "100")] [wdSpec] (by decide)
     (by intro s hs; simp at hs; subst hs; exact ⟨_, rfl, rfl⟩)⟩

/-! ### C2 — the "not-yet-interoperable-implementation" category -/

/-- A W3C spec at the Recommendation stage. -/
def recSpec : Spec :=
  { shortname := "s1", url := "https://www.w3.org/TR/s1/",
    organization := "W3C", nightly := none,
    release := some ⟨"https://www.w3.org/TR/s1/", "Recommendation"⟩,
    series := ⟨"other", none, none⟩, compat_features := none }

/-- A feature with baseline `"low"` whose `spec` property references
`recSpec`. -/
def lowDesc : FeatureDesc :=
  { status := some ⟨some .low, []⟩, compat_features := none,
    spec := some (.str "https://www.w3.org/TR/s1/") }

/-- C2 (counterexample): a feature with baseline `"low"` linked to a
Recommendation-stage W3C spec *does* produce a record in the
"not-yet-interoperable-implementation" category (under bucket `low`) —
the classification's `else` branch records interoperable-status specs for
baseline `low`/`high` features as well, contrary to the claim that only
bucket-`false` records exist in this category. -/
theorem c2_counterexample :
    analyzeFeatures sampleBcd [recSpec] [("f1", lowDesc)] false =
      .ok ⟨emptyBuckets, emptyBuckets,
        ⟨[], [⟨"f1", "s1", "https://www.w3.org/TR/s1/", none⟩], []⟩⟩ := rfl

/-- C2 (amended): records in the "not-yet-interoperable-implementation"
category carry the producing feature's baseline as their bucket.  A record
lands in the `false` bucket only via Step 1 — the feature's baseline is
`false`, its supporting browsers collapse to at most one codebase, and the
spec has an already-interoperable release status; a feature with baseline
`"low"` (resp. `"high"`) also produces records in this category, in the
`low` (resp. `high`) bucket, one per linked spec with interoperable
status. -/
theorem c2_interop_buckets (f : String) (st : FeatureStatus) (specs : List Spec) :
    (∀ e ∈ (classifyFeature f st specs).interoperableStatuses.bfalse,
      st.baseline = some .bfalse ∧ codebaseCount (st.support.map Prod.fst) ≤ 1 ∧
        e ∈ entriesFor f (interopSpecs specs)) ∧
    (st.baseline = some .low →
      (classifyFeature f st specs).interoperableStatuses.low =
        entriesFor f (interopSpecs specs)) ∧
    (st.baseline = some .high →
      (classifyFeature f st specs).interoperableStatuses.high =
        entriesFor f (interopSpecs specs)) := by
  cases hb : st.baseline with
  | none => simp [classifyFeature, hb, emptyWC, emptyBuckets]
  | some b =>
    cases b with
    | bfalse =>
      by_cases hc : codebaseCount (st.support.map Prod.fst) ≤ 1
      · simp [classifyFeature, hb, hc, bucketPut, emptyBuckets]
      · simp [classifyFeature, hb, hc, bucketPut, emptyBuckets]
    | low => simp [classifyFeature, hb, bucketPut, emptyBuckets]
    | high => simp [classifyFeature, hb, bucketPut, emptyBuckets]

/-- Witness for C2: the amended statement at concrete features of each
baseline over the Recommendation-stage spec `recSpec`. -/
theorem c2_interop_buckets_witness :
    ((⟨some .bfalse, [("chrome", "1")]⟩ : FeatureStatus).baseline = some .bfalse ∧
      codebaseCount ([("chrome", "1")].map Prod.fst) ≤ 1 ∧
      (⟨"f2", "s1", "https://www.w3.org/TR/s1/", none⟩ : AnomalyEntry) ∈
        entriesFor "f2" (interopSpecs [recSpec])) ∧
    (classifyFeature "f1" ⟨some .low, []⟩ [recSpec]).interoperableStatuses.low =
      entriesFor "f1" (interopSpecs [recSpec]) ∧
    (classifyFeature "f3" ⟨some .high, []⟩ [recSpec]).interoperableStatuses.high =
      entriesFor "f3" (interopSpecs [recSpec]) :=
  ⟨(c2_interop_buckets "f2" ⟨some .bfalse, [("chrome", "1")]⟩ [recSpec]).1
      ⟨"f2", "s1", "https://www.w3.org/TR/s1/", none⟩ (by decide),
   (c2_interop_buckets "f1" ⟨some .low, []⟩ [recSpec]).2.1 rfl,
   (c2_interop_buckets "f3" ⟨some .high, []⟩ [recSpec]).2.2 rfl⟩

/-! ### C4 — the "more than six of seven" threshold -/

/-- A compat record with a `version_added` for all seven roster browsers,
none partial or flag-gated. -/
def rec7 : CompatRecord :=
  ⟨[("chrome", .single ⟨some "100", false, false⟩),
    ("chrome_android", .single ⟨some "100", false, false⟩),
    ("edge", .single ⟨some "100", false, false⟩),
    ("firefox", .single ⟨some "99", false, false⟩),
    ("firefox_android", .single ⟨some "99", false, false⟩),
    ("safari", .single ⟨some "17", false, false⟩),
    ("safari_ios", .single ⟨some "17", false, false⟩)], none, none⟩

/-- The same record with the `safari_ios` entry absent. -/
def rec6 : CompatRecord :=
  ⟨[("chrome", .single ⟨some "100", false, false⟩),
    ("chrome_android", .single ⟨some "100", false, false⟩),
    ("edge", .single ⟨some "100", false, false⟩),
    ("firefox", .single ⟨some "99", false, false⟩),
    ("firefox_android", .single ⟨some "99", false, false⟩),
    ("safari", .single ⟨some "17", false, false⟩)], none, none⟩

/-- C4: the bucket `analyzeBCD` derives from an evaluated support map is
`"low"` exactly when more than six of the seven roster browsers retain a
value, and `false` otherwise.  In particular one key with `version_added`
for six of seven browsers yields a six-entry map and bucket `false`, and
the same key with all seven set (none partial/flagged) yields bucket
`"low"`. -/
theorem c4_low_threshold :
    (∀ data : List CompatRecord,
      (deriveBaseline (computeSupport data) = .low ↔ 6 < (computeSupport data).length) ∧
      (deriveBaseline (computeSupport data) = .bfalse ↔ (computeSupport data).length ≤ 6)) ∧
    computeSupport [rec6] =
      [("chrome", "100"), ("chrome_android", "100"), ("edge", "100"),
       ("firefox", "99"), ("firefox_android", "99"), ("safari", "17")] ∧
    deriveBaseline (computeSupport [rec6]) = .bfalse ∧
    deriveBaseline (computeSupport [rec7]) = .low := by
  refine ⟨fun data => ⟨?_, ?_⟩, rfl, rfl, rfl⟩
  · by_cases h : 6 < (computeSupport data).length
    · simp [deriveBaseline, h]
    · simp [deriveBaseline, h]
  · by_cases h : 6 < (computeSupport data).length
    · simp [deriveBaseline, h]
    · simp [deriveBaseline, h]
      omega

/-! ### C8 — the NoSpecLinked error -/

/-- Relevance against an empty reference list always fails. -/
theorem isRelevantSpec_nil (s : Spec) : isRelevantSpec s [] = false := by
  simp [isRelevantSpec, findPrefixed, truthyStr]

/-- Evaluation of `processFeature` for a feature with no compat-key list
and a non-empty explicit reference list: filter the catalog by relevance,
fail with *NoSpecLinked* when nothing matches, then restrict to W3C specs
and classify. -/
theorem processFeature_explicitRef (bcd : BCDNode) (webSpecs : List Spec) (f : String)
    (st : FeatureStatus) (urls : List String) (cache : Cache) (hu : urls ≠ []) :
    processFeature bcd webSpecs false f ⟨some st, none, some (.arr urls)⟩ cache =
      (if webSpecs.filter (fun s => isRelevantSpec s urls) = [] then
        .error (.noSpecLinked f)
      else if (webSpecs.filter (fun s => isRelevantSpec s urls)).filter
          (fun s => s.organization == "W3C") = [] then
        .ok (emptyWC, cache)
      else
        .ok (classifyFeature f st
          ((webSpecs.filter (fun s => isRelevantSpec s urls)).filter
            (fun s => s.organization == "W3C")), cache)) := by
  have hlen : 0 < urls.length := List.length_pos.mpr hu
  by_cases hspec : webSpecs.filter (fun s => isRelevantSpec s urls) = []
  · simp [processFeature, specTruthy, StrOrArr.truthy, specUrls, StrOrArr.toList,
      hspec, hlen]
  · by_cases hw3c : (webSpecs.filter (fun s => isRelevantSpec s urls)).filter
        (fun s => s.organization == "W3C") = []
    · simp [processFeature, specTruthy, StrOrArr.truthy, specUrls, StrOrArr.toList,
        hspec, hw3c, hlen, List.length_eq_zero]
    · simp [processFeature, specTruthy, StrOrArr.truthy, specUrls, StrOrArr.toList,
        hspec, hw3c, hlen, List.length_eq_zero]

/-- C8: for a feature with no compat-key list and an explicit reference
list, (1) when the list is non-empty the linker fails with *NoSpecLinked*
exactly when no catalog spec satisfies relevance; (2) an empty reference
list produces no error (and no records); (3) when the relevant specs all
belong to other organizations the feature is silently excluded — the
result is `ok` with no records. -/
theorem c8_no_spec_linked (bcd : BCDNode) (webSpecs : List Spec) (f : String)
    (st : FeatureStatus) (urls : List String) (cache : Cache) :
    (urls ≠ [] →
      (processFeature bcd webSpecs false f ⟨some st, none, some (.arr urls)⟩ cache =
          .error (.noSpecLinked f) ↔
        ∀ s ∈ webSpecs, isRelevantSpec s urls = false)) ∧
    processFeature bcd webSpecs false f ⟨some st, none, some (.arr [])⟩ cache =
      .ok (emptyWC, cache) ∧
    ((∃ s ∈ webSpecs, isRelevantSpec s urls = true) →
      (∀ s ∈ webSpecs, isRelevantSpec s urls = true → s.organization ≠ "W3C") →
      processFeature bcd webSpecs false f ⟨some st, none, some (.arr urls)⟩ cache =
        .ok (emptyWC, cache)) := by
  refine ⟨fun hu => ?_, ?_, fun hex horg => ?_⟩
  · rw [processFeature_explicitRef bcd webSpecs f st urls cache hu]
    by_cases hspec : webSpecs.filter (fun s => isRelevantSpec s urls) = []
    · rw [if_pos hspec]
      constructor
      · intro _ s hs
        have := List.filter_eq_nil_iff.mp hspec s hs
        simpa using this
      · intro _
        rfl
    · rw [if_neg hspec]
      constructor
      · intro herr
        exfalso
        revert herr
        split <;> intro herr <;> exact Except.noConfusion herr
      · intro hall
        exact absurd (List.filter_eq_nil_iff.mpr (fun s hs => by simp [hall s hs])) hspec
  · have hspec : webSpecs.filter (fun s => isRelevantSpec s []) = [] :=
      List.filter_eq_nil_iff.mpr (fun s _ => by simp [isRelevantSpec_nil])
    simp [processFeature, specTruthy, StrOrArr.truthy, specUrls, StrOrArr.toList, hspec]
  · obtain ⟨s0, hs0, hrel⟩ := hex
    have hspec : webSpecs.filter (fun s => isRelevantSpec s urls) ≠ [] := by
      intro hnil
      have := List.filter_eq_nil_iff.mp hnil s0 hs0
      simp [hrel] at this
    have hw3c : (webSpecs.filter (fun s => isRelevantSpec s urls)).filter
        (fun s => s.organization == "W3C") = [] := by
      apply List.filter_eq_nil_iff.mpr
      intro s hs
      have hmem := List.mem_filter.mp hs
      have := horg s hmem.1 (by simpa using hmem.2)
      simp [this]
    have hu : urls ≠ [] := by
      intro hnil
      subst hnil
      exact hspec (List.filter_eq_nil_iff.mpr (fun s _ => by simp [isRelevantSpec_nil]))
    rw [processFeature_explicitRef bcd webSpecs f st urls cache hu, if_neg hspec,
      if_pos hw3c]

/-- A spec from another organization whose canonical URL is referenced. -/
def whatwgSpec : Spec :=
  { shortname := "html", url := "https://html.spec.whatwg.org/multipage/",
    organization := "WHATWG", nightly := none, release := none,
    series := ⟨"other", none, none⟩, compat_features := none }

/-- Witness for C8: the three behaviours at concrete inputs — an unmatched
non-empty reference errors, an empty reference list does not, and a
reference matched only by a non-W3C spec is silently excluded. -/
theorem c8_no_spec_linked_witness :
    processFeature sampleBcd [] false "f" ⟨some ⟨some .high, []⟩, none,
        some (.arr ["https://example.org/"])⟩ [] = .error (.noSpecLinked "f") ∧
    processFeature sampleBcd [] false "f" ⟨some ⟨some .high, []⟩, none,
        some (.arr [])⟩ [] = .ok (emptyWC, []) ∧
    processFeature sampleBcd [whatwgSpec] false "f" ⟨some ⟨some .high, []⟩, none,
        some (.arr ["https://html.spec.whatwg.org/multipage/"])⟩ [] =
      .ok (emptyWC, []) :=
  ⟨((c8_no_spec_linked sampleBcd [] "f" ⟨some .high, []⟩ ["https://example.org/"] []).1
      (by simp)).mpr (by simp),
   (c8_no_spec_linked sampleBcd [] "f" ⟨some .high, []⟩ [] []).2.1,
   (c8_no_spec_linked sampleBcd [whatwgSpec] "f" ⟨some .high, []⟩
      ["https://html.spec.whatwg.org/multipage/"] []).2.2
     ⟨whatwgSpec, by simp, by decide⟩
     (by intro s hs _; simp at hs; subst hs; decide)⟩

/-! ### Order lemmas for the JS string comparison -/

/-- The comparison `charListLt` is irreflexive. -/
theorem charListLt_irrefl : ∀ l : List Char, charListLt l l = false
  | [] => rfl
  | a :: as => by simp [charListLt, charListLt_irrefl as]

/-- The comparison `charListLt` is transitive. -/
theorem charListLt_trans : ∀ x y z : List Char, charListLt x y = true →
    charListLt y z = true → charListLt x z = true
  | _, [], _, hxy, _ => by simp [charListLt] at hxy
  | _, _ :: _, [], _, hyz => by simp [charListLt] at hyz
  | [], b :: bs, c :: cs, _, _ => rfl
  | a :: as, b :: bs, c :: cs, hxy, hyz => by
    simp only [charListLt] at hxy hyz ⊢
    by_cases hab : a < b
    · by_cases hbc : b < c
      · simp [lt_trans hab hbc]
      · by_cases hcb : c < b
        · simp [hbc, hcb] at hyz
        · have : b = c := le_antisymm (not_lt.mp hcb) (not_lt.mp hbc)
          subst this
          simp [hab]
    · by_cases hba : b < a
      · simp [hab, hba] at hxy
      · have : a = b := le_antisymm (not_lt.mp hba) (not_lt.mp hab)
        subst this
        by_cases hbc : a < c
        · simp [hbc]
        · by_cases hcb : c < a
          · simp [hbc, hcb] at hyz
          · have : a = c := le_antisymm (not_lt.mp hcb) (not_lt.mp hbc)
            subst this
            simp [charListLt_irrefl] at hxy hyz ⊢
            exact charListLt_trans as bs cs hxy hyz

/-- The comparison `jsStrLt` is irreflexive. -/
theorem jsStrLt_irrefl (s : String) : jsStrLt s s = false :=
  charListLt_irrefl s.data

/-- The comparison `jsStrLt` is transitive. -/
theorem jsStrLt_trans {x y z : String} (hxy : jsStrLt x y = true)
    (hyz : jsStrLt y z = true) : jsStrLt x z = true :=
  charListLt_trans x.data y.data z.data hxy hyz

/-- The empty string is strictly below every non-empty string. -/
theorem jsStrLt_empty (v : String) (h : v ≠ "") : jsStrLt "" v = true := by
  have hd : v.data ≠ [] := fun hnil => h (by
    cases v with
    | mk d => simp at hnil; simp [hnil])
  cases hv : v.data with
  | nil => exact absurd hv hd
  | cons c cs => simp [jsStrLt, hv, charListLt]

/-! ### Fold lemmas for the running maximum -/

/-- The running maximum is the accumulator or one of the folded values. -/
theorem foldl_vmax_mem (vs : List String) : ∀ acc : String,
    List.foldl (fun a v => if jsStrLt a v then v else a) acc vs = acc ∨
      List.foldl (fun a v => if jsStrLt a v then v else a) acc vs ∈ vs := by
  induction vs with
  | nil => intro acc; exact Or.inl rfl
  | cons v rest ih =>
    intro acc
    simp only [List.foldl_cons]
    rcases ih (if jsStrLt acc v then v else acc) with h | h
    · rw [h]
      by_cases hlt : jsStrLt acc v = true
      · simp [hlt]
      · simp [hlt]
    · exact Or.inr (List.mem_cons_of_mem v h)

/-- The running maximum never goes below a value it already dominates. -/
theorem foldl_vmax_not_lt (vs : List String) : ∀ acc w : String,
    jsStrLt acc w = false →
    jsStrLt (List.foldl (fun a v => if jsStrLt a v then v else a) acc vs) w = false := by
  induction vs with
  | nil => intro acc w h; exact h
  | cons v rest ih =>
    intro acc w h
    simp only [List.foldl_cons]
    apply ih
    by_cases hlt : jsStrLt acc v = true
    · rw [if_pos hlt]
      by_cases hvw : jsStrLt v w = true
      · exact absurd (jsStrLt_trans hlt hvw) (by simp [h])
      · simp at hvw
        exact hvw
    · rw [if_neg hlt]
      exact h

/-- The running maximum dominates every folded value. -/
theorem foldl_vmax_ge_mem (vs : List String) : ∀ (acc w : String), w ∈ vs →
    jsStrLt (List.foldl (fun a v => if jsStrLt a v then v else a) acc vs) w = false := by
  induction vs with
  | nil => intro acc w h; cases h
  | cons v rest ih =>
    intro acc w hw
    simp only [List.foldl_cons]
    rcases List.mem_cons.mp hw with rfl | hmem
    · apply foldl_vmax_not_lt
      by_cases hlt : jsStrLt acc w = true
      · simp [hlt, jsStrLt_irrefl]
      · simp at hlt
        simp [hlt]
    · exact ih _ w hmem

/-! ### Characterizing the support loop -/

/-- One step of the per-browser loop, phrased through `versionOf`. -/
theorem supportLoop_cons (b : String) (r : CompatRecord) (rest : List CompatRecord)
    (acc : String) :
    supportLoop b (r :: rest) acc =
      match versionOf r b with
      | none => ""
      | some v => supportLoop b rest (if jsStrLt acc v then v else acc) := by
  cases hbs : (lookupKey r.support b).bind entryFirst with
  | none => simp [supportLoop, versionOf, hbs]
  | some bs =>
    cases hp : bs.partial_implementation with
    | true => simp [supportLoop, versionOf, hbs, hp]
    | false =>
      cases hf : bs.flags with
      | true => simp [supportLoop, versionOf, hbs, hp, hf]
      | false =>
        cases hva : bs.version_added with
        | none => simp [supportLoop, versionOf, hbs, hp, hf, hva]
        | some v =>
          by_cases hv : v = ""
          · simp [supportLoop, versionOf, hbs, hp, hf, hva, hv]
          · simp [supportLoop, versionOf, hbs, hp, hf, hva, hv]

/-- The per-browser loop equals the running maximum of the per-record
versions when no record disqualifies the browser, and `''` otherwise. -/
theorem supportLoop_eq (b : String) (data : List CompatRecord) : ∀ acc : String,
    supportLoop b data acc =
      if data.all (fun r => (versionOf r b).isSome) then
        List.foldl (fun a v => if jsStrLt a v then v else a) acc
          (data.filterMap (fun r => versionOf r b))
      else "" := by
  induction data with
  | nil => intro acc; simp [supportLoop]
  | cons r rest ih =>
    intro acc
    rw [supportLoop_cons]
    cases hv : versionOf r b with
    | none => simp [hv]
    | some v => simp [hv, ih]

/-- A version contributed by a record is never the empty string. -/
theorem versionOf_ne_empty {r : CompatRecord} {b v : String}
    (h : versionOf r b = some v) : v ≠ "" := by
  unfold versionOf at h
  cases hbs : (lookupKey r.support b).bind entryFirst with
  | none => simp [hbs] at h
  | some bs =>
    rw [hbs] at h
    cases hp : bs.partial_implementation with
    | true => simp [hp] at h
    | false =>
      cases hf : bs.flags with
      | true => simp [hp, hf] at h
      | false =>
        cases hva : bs.version_added with
        | none => simp [hp, hf, hva] at h
        | some w =>
          by_cases hw : w = ""
          · simp [hp, hf, hva, hw] at h
          · simp [hp, hf, hva, hw] at h
            exact h ▸ hw

/-! ### Looking up a browser in the computed support map -/

/-- A browser outside the roster never appears in the computed map. -/
theorem lookupKey_mapfilter_notmem (f : String → String) :
    ∀ (roster : List String) (b : String), b ∉ roster →
      lookupKey ((roster.map (fun b2 => (b2, f b2))).filter (fun p => p.2 != "")) b =
        none := by
  intro roster
  induction roster with
  | nil => intro b _; rfl
  | cons a rest ih =>
    intro b hb
    have hba : b ≠ a := fun h => hb (h ▸ List.mem_cons_self a rest)
    have hbrest : b ∉ rest := fun h => hb (List.mem_cons_of_mem a h)
    by_cases hfa : (f a != "") = true
    · simp only [List.map_cons, List.filter_cons, hfa, if_pos]
      simp only [lookupKey, if_neg (Ne.symm hba)]
      exact ih b hbrest
    · simp only [List.map_cons, List.filter_cons, hfa]
      simp only [Bool.false_eq_true, if_false]
      exact ih b hbrest

/-- Looking up a roster browser in the computed map yields its loop value,
unless that value was cleared. -/
theorem lookupKey_mapfilter (f : String → String) :
    ∀ (roster : List String), roster.Nodup → ∀ b ∈ roster,
      lookupKey ((roster.map (fun b2 => (b2, f b2))).filter (fun p => p.2 != "")) b =
        if f b = "" then none else some (f b) := by
  intro roster
  induction roster with
  | nil => intro _ b hb; cases hb
  | cons a rest ih =>
    intro hnodup b hb
    have hanotin : a ∉ rest := (List.nodup_cons.mp hnodup).1
    have hrest : rest.Nodup := (List.nodup_cons.mp hnodup).2
    rcases List.mem_cons.mp hb with rfl | hmem
    · by_cases hfa : f b = ""
      · simp only [List.map_cons, List.filter_cons, hfa]
        simp only [bne_self_eq_false, Bool.false_eq_true, if_false, if_pos]
        exact lookupKey_mapfilter_notmem f rest b hanotin
      · have : (f b != "") = true := bne_iff_ne.mpr hfa
        simp only [List.map_cons, List.filter_cons, this, if_pos]
        simp [lookupKey, hfa]
    · have hba : a ≠ b := fun h => hanotin (h ▸ hmem)
      by_cases hfa : (f a != "") = true
      · simp only [List.map_cons, List.filter_cons, hfa, if_pos]
        simp only [lookupKey, if_neg hba]
        exact ih hrest b hmem
      · simp only [List.map_cons, List.filter_cons, hfa]
        simp only [Bool.false_eq_true, if_false]
        exact ih hrest b hmem

/-! ### C3 — the support evaluation -/

/-- C3: over any non-empty list of compat records (one per supplied
compatibility key) and any roster browser `b`: the browser is dropped from
the evaluated map exactly when some record disqualifies it (no support
entry, no truthy "version introduced", or partial/flag-gated — the cases
in which `versionOf` is `none`); and when the browser is retained, its
value is one of the per-record "version introduced" values and is not
exceeded by any of them (the maximum under the JS string order). -/
theorem c3_support_evaluation (compatData : List CompatRecord) (b : String)
    (hne : compatData ≠ []) (hb : b ∈ baselineBrowsers) :
    (lookupKey (computeSupport compatData) b = none ↔
      ∃ r ∈ compatData, versionOf r b = none) ∧
    (∀ v, lookupKey (computeSupport compatData) b = some v →
      (∃ r ∈ compatData, versionOf r b = some v) ∧
      ∀ r ∈ compatData, ∀ w, versionOf r b = some w → jsStrLt v w = false) := by
  have hnodup : baselineBrowsers.Nodup := by decide
  have hlk : lookupKey (computeSupport compatData) b =
      if supportLoop b compatData "" = "" then none
      else some (supportLoop b compatData "") := by
    have h := lookupKey_mapfilter (fun b2 => supportLoop b2 compatData "")
      baselineBrowsers hnodup b hb
    simpa [computeSupport] using h
  by_cases hall : compatData.all (fun r => (versionOf r b).isSome) = true
  · have hvs : compatData.filterMap (fun r => versionOf r b) ≠ [] := by
      cases hd : compatData with
      | nil => exact absurd hd hne
      | cons r0 rest =>
        have h0 : (versionOf r0 b).isSome = true := by
          have := List.all_eq_true.mp hall r0 (hd ▸ List.mem_cons_self r0 rest)
          simpa using this
        obtain ⟨v0, hv0⟩ := Option.isSome_iff_exists.mp h0
        simp [List.filterMap_cons, hv0]
    obtain ⟨v0, vs2, hcons⟩ := List.exists_cons_of_ne_nil hvs
    have hv0mem : v0 ∈ compatData.filterMap (fun r => versionOf r b) := by
      rw [hcons]; exact List.mem_cons_self _ _
    have hv0ne : v0 ≠ "" := by
      obtain ⟨r, _, hr⟩ := List.mem_filterMap.mp hv0mem
      exact versionOf_ne_empty hr
    have hloop : supportLoop b compatData "" =
        List.foldl (fun a v => if jsStrLt a v then v else a) v0 vs2 := by
      rw [supportLoop_eq, if_pos hall, hcons, List.foldl_cons,
        if_pos (jsStrLt_empty v0 hv0ne)]
    have hvalmem : supportLoop b compatData "" ∈
        compatData.filterMap (fun r => versionOf r b) := by
      rw [hloop, hcons]
      rcases foldl_vmax_mem vs2 v0 with h | h
      · rw [h]; exact List.mem_cons_self _ _
      · exact List.mem_cons_of_mem _ h
    have hvalne : supportLoop b compatData "" ≠ "" := by
      obtain ⟨r, _, hr⟩ := List.mem_filterMap.mp hvalmem
      exact versionOf_ne_empty hr
    constructor
    · rw [hlk, if_neg hvalne]
      constructor
      · intro h; exact Option.noConfusion h
      · rintro ⟨r, hr, hnone⟩
        have := List.all_eq_true.mp hall r hr
        simp [hnone] at this
    · intro v hv
      rw [hlk, if_neg hvalne] at hv
      have hveq : v = supportLoop b compatData "" := (Option.some.inj hv).symm
      subst hveq
      refine ⟨List.mem_filterMap.mp hvalmem, ?_⟩
      intro r hr w hw
      have hwvs : w ∈ compatData.filterMap (fun r2 => versionOf r2 b) :=
        List.mem_filterMap.mpr ⟨r, hr, hw⟩
      rw [hcons] at hwvs
      rcases List.mem_cons.mp hwvs with rfl | hwmem
      · rw [hloop]
        apply foldl_vmax_not_lt
        exact jsStrLt_irrefl w
      · rw [hloop]
        exact foldl_vmax_ge_mem vs2 v0 w hwmem
  · have hval0 : supportLoop b compatData "" = "" := by
      rw [supportLoop_eq, if_neg hall]
    have hex : ∃ r ∈ compatData, versionOf r b = none := by
      have hnotall : ¬ ∀ r ∈ compatData, (versionOf r b).isSome = true :=
        fun hforall => hall (List.all_eq_true.mpr hforall)
      push_neg at hnotall
      obtain ⟨r, hr, hnot⟩ := hnotall
      cases hvr : versionOf r b with
      | none => exact ⟨r, hr, hvr⟩
      | some v => exact absurd (by simp [hvr]) hnot
    constructor
    · rw [hlk, if_pos hval0]
      exact ⟨fun _ => hex, fun _ => rfl⟩
    · intro v hv
      rw [hlk, if_pos hval0] at hv
      exact Option.noConfusion hv

/-- Witness for C3: the full characterization at the concrete record
`rec6` and the roster browser `"chrome"`. -/
theorem c3_support_evaluation_witness :
    (lookupKey (computeSupport [rec6]) "chrome" = none ↔
      ∃ r ∈ [rec6], versionOf r "chrome" = none) ∧
    (∀ v, lookupKey (computeSupport [rec6]) "chrome" = some v →
      (∃ r ∈ [rec6], versionOf r "chrome" = some v) ∧
      ∀ r ∈ [rec6], ∀ w, versionOf r "chrome" = some w → jsStrLt v w = false) :=
  c3_support_evaluation [rec6] "chrome" (by simp) (by decide)

/-! ### Splitting and joining path strings -/

/-- Splitting never produces the empty segment list. -/
theorem charSplitOn_ne_nil (sep : Char) : ∀ l : List Char, charSplitOn sep l ≠ []
  | [] => by simp [charSplitOn]
  | c :: rest => by
    by_cases h : c = sep
    · simp [charSplitOn, h]
    · cases hsp : charSplitOn sep rest with
      | nil => exact absurd hsp (charSplitOn_ne_nil sep rest)
      | cons s ss => simp [charSplitOn, h, hsp]

/-- Joining undoes splitting, on character lists. -/
theorem charJoin_charSplitOn (sep : Char) : ∀ l : List Char,
    charJoin sep (charSplitOn sep l) = l
  | [] => rfl
  | c :: rest => by
    have ih := charJoin_charSplitOn sep rest
    by_cases h : c = sep
    · subst h
      cases hsp : charSplitOn c rest with
      | nil => exact absurd hsp (charSplitOn_ne_nil c rest)
      | cons s ss =>
        rw [hsp] at ih
        simp [charSplitOn, hsp, charJoin, ih]
    · cases hsp : charSplitOn sep rest with
      | nil => exact absurd hsp (charSplitOn_ne_nil sep rest)
      | cons s ss =>
        simp only [charSplitOn, h, if_neg, hsp]
        rw [hsp] at ih
        cases ss with
        | nil => simp only [charJoin] at ih ⊢; simp [ih]
        | cons s2 ss2 => simp only [charJoin] at ih ⊢; simp [ih]

/-- Splitting distributes over a separator-joined concatenation. -/
theorem charSplitOn_sep_append (sep : Char) : ∀ k t : List Char,
    charSplitOn sep (k ++ sep :: t) = charSplitOn sep k ++ charSplitOn sep t
  | [], t => by simp [charSplitOn]
  | c :: k2, t => by
    have ih := charSplitOn_sep_append sep k2 t
    by_cases h : c = sep
    · simp [charSplitOn, h, ih]
    · cases hsp : charSplitOn sep k2 with
      | nil => exact absurd hsp (charSplitOn_ne_nil sep k2)
      | cons s ss =>
        rw [hsp] at ih
        simp [charSplitOn, h, ih, hsp]

/-- Splitting a separator-free list yields that list as the one segment. -/
theorem charSplitOn_no_sep (sep : Char) : ∀ l : List Char,
    l.contains sep = false → charSplitOn sep l = [l]
  | [], _ => rfl
  | c :: rest, h => by
    have hc : ¬ c = sep := by
      intro hcs
      subst hcs
      simp [List.contains_cons] at h
    have hrest : rest.contains sep = false := by
      simp [List.contains_cons] at h
      simp [h.2]
    simp [charSplitOn, hc, charSplitOn_no_sep sep rest hrest]

/-- Splitting then rejoining any path string is the identity. -/
theorem joinSegs_jsSplit (s : String) : joinSegs (jsSplit s) = s := by
  have h : ∀ ls : List (List Char),
      joinSegs (ls.map (fun l => String.mk l)) = String.mk (charJoin '.' ls) := by
    intro ls
    induction ls with
    | nil => rfl
    | cons l ls2 ih =>
      cases ls2 with
      | nil => rfl
      | cons l2 ls3 =>
        simp only [List.map_cons, joinSegs, charJoin] at ih ⊢
        rw [ih]
        show String.mk ((l ++ ['.']) ++ charJoin '.' (l2 :: ls3)) =
          String.mk (l ++ '.' :: charJoin '.' (l2 :: ls3))
        simp
  show joinSegs ((charSplitOn '.' s.data).map (fun l => String.mk l)) = s
  rw [h, charJoin_charSplitOn]

/-- Splitting the traversal's `` `${key}.${i}` `` appends the sub-feature
name as one extra segment, whenever that name is a good key. -/
theorem jsSplit_append_seg (key i : String) (hig : goodKey i = true) :
    jsSplit (key ++ "." ++ i) = jsSplit key ++ [i] := by
  have hdata : (key ++ "." ++ i).data = key.data ++ '.' :: i.data := by
    show (key.data ++ ['.']) ++ i.data = key.data ++ '.' :: i.data
    simp
  have hnodot : i.data.contains '.' = false := by
    have := (Bool.and_eq_true _ _).mp hig
    simpa using this.2
  show ((charSplitOn '.' (key ++ "." ++ i).data).map (fun l => String.mk l)) = _
  rw [hdata, charSplitOn_sep_append, charSplitOn_no_sep '.' i.data hnodot]
  simp [jsSplit]

/-! ### Resolving traversal paths -/

/-- A successful lookup witnesses membership. -/
theorem lookupKey_mem {α : Type} : ∀ (cs : List (String × α)) (k : String) (v : α),
    lookupKey cs k = some v → (k, v) ∈ cs
  | [], _, _, h => by simp [lookupKey] at h
  | (a, b) :: rest, k, v, h => by
    by_cases hak : a = k
    · subst hak
      simp only [lookupKey, if_pos rfl] at h
      exact (Option.some.inj h) ▸ List.mem_cons_self _ _
    · simp only [lookupKey, if_neg hak] at h
      exact List.mem_cons_of_mem _ (lookupKey_mem rest k v h)

/-- With pairwise-distinct keys, membership determines the lookup. -/
theorem lookupKey_of_mem_distinct {α : Type} :
    ∀ (cs : List (String × α)) (k : String) (v : α),
      keysDistinct (cs.map Prod.fst) = true → (k, v) ∈ cs →
      lookupKey cs k = some v
  | [], _, _, _, hmem => by cases hmem
  | (a, b) :: rest, k, v, hdist, hmem => by
    have hd := (Bool.and_eq_true _ _).mp hdist
    rcases List.mem_cons.mp hmem with heq | hmem2
    · injection heq with h1 h2
      subst h1
      subst h2
      simp [lookupKey]
    · by_cases hak : a = k
      · subst hak
        have : a ∈ rest.map Prod.fst :=
          List.mem_map.mpr ⟨(a, v), hmem2, rfl⟩
        have hc := hd.1
        simp [List.contains_eq_any_beq, List.any_eq_true] at hc
        exact absurd this (by simpa using hc)
      · simp only [lookupKey, if_neg hak]
        exact lookupKey_of_mem_distinct rest k v hd.2 hmem2

/-- Appending one resolvable segment to a fully-consumed resolvable path. -/
theorem resolveSegs_snoc (i : String) (c : BCDNode) :
    ∀ (b : BCDNode) (segs : List String) (n : BCDNode),
      (∀ s ∈ segs, s ≠ "") → resolveSegs b segs = some n → i ≠ "" →
      childLookup n i = some c → resolveSegs b (segs ++ [i]) = some c := by
  intro b segs
  induction segs generalizing b with
  | nil =>
    intro n _ hres hi hchild
    have hbn : b = n := Option.some.inj hres
    subst hbn
    simp [resolveSegs, hi, hchild]
  | cons seg rest ih =>
    intro n hne hres hi hchild
    have hseg : seg ≠ "" := hne seg (List.mem_cons_self _ _)
    simp only [resolveSegs, if_neg hseg] at hres ⊢
    cases hd : childLookup b seg with
    | none => rw [hd] at hres; exact Option.noConfusion hres
    | some d =>
      rw [hd] at hres
      exact ih d n (fun s hs => hne s (List.mem_cons_of_mem _ hs)) hres hi hchild

/-- Per-entry facts extracted from a well-formed children list. -/
theorem wfChildren_mem : ∀ (cs : List (String × BCDNode)),
    wfChildren cs = true → ∀ pr ∈ cs,
      goodKey pr.1 = true ∧ keysDistinct (pr.2.children.map Prod.fst) = true ∧
        wfChildren pr.2.children = true
  | [], _, _, hmem => by cases hmem
  | (k, .node compat cs2) :: rest, hwf, pr, hmem => by
    simp only [wfChildren, Bool.and_eq_true] at hwf
    obtain ⟨⟨⟨hgood, hdist⟩, hwf2⟩, hwfrest⟩ := hwf
    rcases List.mem_cons.mp hmem with heq | hmem2
    · subst heq
      exact ⟨hgood, hdist, hwf2⟩
    · exact wfChildren_mem rest hwfrest pr hmem2

/-- Every path yielded by the traversal of a well-formed children list is
resolvable from the catalog root, provided each direct child's extended
path resolves to that child. -/
theorem traverse_resolves (bcd : BCDNode) :
    ∀ (cs : List (String × BCDNode)) (key : String),
      wfChildren cs = true →
      keysDistinct (cs.map Prod.fst) = true →
      (∀ s ∈ jsSplit key, s ≠ "") →
      (∀ pr ∈ cs, resolveSegs bcd (jsSplit (key ++ "." ++ pr.1)) = some pr.2) →
      ∀ p ∈ traverseChildren cs key, ∃ m, resolveSegs bcd (jsSplit p) = some m
  | [], key => by
    intro _ _ _ _ p hp
    simp [traverseChildren] at hp
  | (i, .node compat cs2) :: rest, key => by
    intro hwf hdist hkey hres p hp
    simp only [wfChildren, Bool.and_eq_true] at hwf
    obtain ⟨⟨⟨hgood, hdist2⟩, hwf2⟩, hwfrest⟩ := hwf
    have hresHead : resolveSegs bcd (jsSplit (key ++ "." ++ i)) =
        some (.node compat cs2) :=
      hres (i, .node compat cs2) (List.mem_cons_self _ _)
    have hkey2 : ∀ s ∈ jsSplit (key ++ "." ++ i), s ≠ "" := by
      rw [jsSplit_append_seg key i hgood]
      intro s hs
      rcases List.mem_append.mp hs with h | h
      · exact hkey s h
      · have : s = i := by simpa using h
        subst this
        have := (Bool.and_eq_true _ _).mp hgood
        simpa using this.1
    simp only [traverseChildren] at hp
    rcases List.mem_cons.mp hp with rfl | hp2
    · exact ⟨_, hresHead⟩
    rcases List.mem_append.mp hp2 with hpc | hpr
    · apply traverse_resolves bcd cs2 (key ++ "." ++ i) hwf2 hdist2 hkey2 _ p hpc
      intro pr hpr2
      obtain ⟨hgoodj, _, _⟩ := wfChildren_mem cs2 hwf2 pr hpr2
      have hj : pr.1 ≠ "" := by
        have := (Bool.and_eq_true _ _).mp hgoodj
        simpa using this.1
      rw [jsSplit_append_seg (key ++ "." ++ i) pr.1 hgoodj]
      apply resolveSegs_snoc pr.1 pr.2 bcd (jsSplit (key ++ "." ++ i))
        (.node compat cs2) hkey2 hresHead hj
      show lookupKey cs2 pr.1 = some pr.2
      exact lookupKey_of_mem_distinct cs2 pr.1 pr.2 hdist2 hpr2
    · have hdistRest : keysDistinct (rest.map Prod.fst) = true := by
        have := (Bool.and_eq_true _ _).mp hdist
        exact this.2
      exact traverse_resolves bcd rest key hwfrest hdistRest hkey
        (fun pr hpr2 => hres pr (List.mem_cons_of_mem _ hpr2)) p hpr

/-- Every path yielded by the root traversal of a well-formed catalog is
resolvable. -/
theorem traverseRoots_resolves (bcd : BCDNode) (hwf : wfNode bcd = true) :
    ∀ (roots : List String) (paths : List String),
      (∀ r ∈ roots, jsSplit r = [r] ∧ r ≠ "") →
      traverseRoots bcd roots = .ok paths →
      ∀ p ∈ paths, ∃ m, resolveSegs bcd (jsSplit p) = some m := by
  intro roots
  induction roots with
  | nil =>
    intro paths _ htrav p hp
    have : paths = [] := (Except.ok.inj htrav).symm
    subst this
    cases hp
  | cons root rest ih =>
    intro paths hroots htrav p hp
    simp only [traverseRoots] at htrav
    cases hd : childLookup bcd root with
    | none => rw [hd] at htrav; exact Except.noConfusion htrav
    | some n =>
      rw [hd] at htrav
      cases hrest : traverseRoots bcd rest with
      | error e => rw [hrest] at htrav; exact Except.noConfusion htrav
      | ok l =>
        rw [hrest] at htrav
        have hpaths : paths = traverseChildren n.children root ++ l :=
          (Except.ok.inj htrav).symm
        subst hpaths
        have hrootmem : (root, n) ∈ bcd.children := lookupKey_mem bcd.children root n hd
        have hwfsplit := (Bool.and_eq_true _ _).mp hwf
        obtain ⟨_, hndist, hnwf⟩ :=
          wfChildren_mem bcd.children hwfsplit.2 (root, n) hrootmem
        obtain ⟨hrsplit, hrne⟩ := hroots root (List.mem_cons_self _ _)
        rcases List.mem_append.mp hp with hpn | hpl
        · apply traverse_resolves bcd n.children root hnwf hndist _ _ p hpn
          · rw [hrsplit]
            intro s hs
            have : s = root := by simpa using hs
            subst this
            exact hrne
          · intro pr hpr
            obtain ⟨hgoodj, _, _⟩ := wfChildren_mem n.children hnwf pr hpr
            have hj : pr.1 ≠ "" := by
              have := (Bool.and_eq_true _ _).mp hgoodj
              simpa using this.1
            rw [jsSplit_append_seg root pr.1 hgoodj, hrsplit]
            have hres1 : resolveSegs bcd [root] = some n := by
              simp [resolveSegs, hrne, hd]
            apply resolveSegs_snoc pr.1 pr.2 bcd [root] n _ hres1 hj
            · exact lookupKey_of_mem_distinct n.children pr.1 pr.2 hndist hpr
            · intro s hs
              have : s = root := by simpa using hs
              subst this
              exact hrne
        · exact ih l (fun r hr => hroots r (List.mem_cons_of_mem _ hr)) hrest p hpl

/-! ### C9 — path round-trip -/

/-- C9: every path yielded by the BCD traversal of a well-formed catalog
(distinct, non-empty, dot-free keys — the shape of a JSON compat tree)
resolves from a fresh cache to a node (no *MissingKey* error), and
splitting the path on `'.'` then re-joining the segments with `'.'`
reproduces the path exactly. -/
theorem c9_path_round_trip (bcd : BCDNode) (paths : List String) (p : String)
    (hwf : wfNode bcd = true) (htrav : traverseBCDFeatures bcd = .ok paths)
    (hp : p ∈ paths) :
    (∃ n, getBcdKey bcd [] p false = .ok (.nodeRes n, [(p, n)])) ∧
    joinSegs (jsSplit p) = p := by
  have hroots : ∀ r ∈ rootLevels, jsSplit r = [r] ∧ r ≠ "" := by decide
  obtain ⟨m, hm⟩ := traverseRoots_resolves bcd hwf rootLevels paths hroots htrav p hp
  refine ⟨⟨m, ?_⟩, joinSegs_jsSplit p⟩
  simp [getBcdKey, lookupKey, hm]

/-- A catalog carrying all nine root categories, with one `css` branch. -/
def wTree : BCDNode :=
  .node none
    [("api", sampleLeaf), ("css", cssNode), ("html", sampleLeaf),
     ("http", sampleLeaf), ("svg", sampleLeaf), ("javascript", sampleLeaf),
     ("mathml", sampleLeaf), ("webassembly", sampleLeaf),
     ("webdriver", sampleLeaf)]

/-- Witness for C9: the round-trip at the concrete catalog `wTree`, whose
traversal yields exactly the path `"css.properties"`. -/
theorem c9_path_round_trip_witness :
    wfNode wTree = true ∧
    traverseBCDFeatures wTree = .ok ["css.properties"] ∧
    "css.properties" ∈ ["css.properties"] ∧
    ((∃ n, getBcdKey wTree [] "css.properties" false =
        .ok (.nodeRes n, [("css.properties", n)])) ∧
      joinSegs (jsSplit "css.properties") = "css.properties") := by
  have h1 : wfNode wTree = true := by
    simp [wfNode, wTree, wfChildren, keysDistinct, goodKey, cssNode, sampleLeaf,
      BCDNode.children]
  have h2 : traverseBCDFeatures wTree = .ok ["css.properties"] := by
    simp [traverseBCDFeatures, rootLevels, traverseRoots, wTree, childLookup,
      lookupKey, BCDNode.children, cssNode, sampleLeaf, traverseChildren]
  exact ⟨h1, h2, by decide,
    c9_path_round_trip wTree ["css.properties"] "css.properties" h1 h2 (by decide)⟩
